import Mathlib

/-!
# Verification of the job-scraper extraction and normalization pipeline

A shallow embedding of `scraper.py`: the time-string normalizer
(`parse_job_time`), the per-site adapter filtering logic (Dribbble and the
Remote Rocketship selector-failover adapter), and the aggregation stage
(dedup, sort, output) of `scrape_all_jobs`.

Modelling conventions:
* Python `datetime` values are modelled at second granularity by the
  `DateTime` structure; comparison and subtraction go through the
  proleptic-Gregorian second count `toSec` (the same ordinal arithmetic
  CPython's `datetime` uses).  The several `datetime.now()` calls of one
  run are modelled as a single instant `now` passed explicitly.
* Strings are ASCII `List Char`; the specific regular expressions of the
  source are implemented directly as scanning functions with Python's
  leftmost-match semantics (each is annotated with the pattern it models).
* `strptime` for the fixed formats used by the source is modelled by
  componentwise digit-string validation exactly mirroring CPython's
  `_strptime` regexes (`%Y` exactly 4 digits, `%y` exactly 2,
  `%m`/`%d` 1-2 digits with value bounds, full consumption required)
  followed by calendar validation.
-/

/-! ## Date-time model -/

structure DateTime where
  year : Nat
  month : Nat
  day : Nat
  hour : Nat
  minute : Nat
  second : Nat
deriving DecidableEq, Repr

def isLeapYear (y : Nat) : Bool :=
  y % 4 == 0 && (y % 100 != 0 || y % 400 == 0)

def daysInMonth (y m : Nat) : Nat :=
  match m with
  | 1 => 31
  | 2 => if isLeapYear y then 29 else 28
  | 3 => 31
  | 4 => 30
  | 5 => 31
  | 6 => 30
  | 7 => 31
  | 8 => 31
  | 9 => 30
  | 10 => 31
  | 11 => 30
  | 12 => 31
  | _ => 0

/-- Days in all years before year `y` (proleptic Gregorian, year 1 first). -/
def daysBeforeYear (y : Nat) : Nat :=
  (y - 1) * 365 + (y - 1) / 4 - (y - 1) / 100 + (y - 1) / 400

/-- Days in the months of year `y` strictly before month `m`. -/
def daysBeforeMonth (y m : Nat) : Nat :=
  match m with
  | 0 => 0
  | mm + 1 => if mm = 0 then 0 else daysBeforeMonth y mm + daysInMonth y mm

/-- Python `date.toordinal`: 0001-01-01 has ordinal 1. -/
def toOrdinal (y m d : Nat) : Nat :=
  daysBeforeYear y + daysBeforeMonth y m + d

/-- Seconds since 0001-01-01T00:00:00 (so comparisons of `DateTime`s agree
with CPython's lexicographic `datetime` comparison on valid dates). -/
def DateTime.toSec (t : DateTime) : Int :=
  ((toOrdinal t.year t.month t.day - 1) * 86400
    + t.hour * 3600 + t.minute * 60 + t.second : Nat)

/-- Month lookup inside a year given a 1-based day-of-year (fueled walk
over the 12 months, mirroring CPython `_ord2ymd`'s probe loop). -/
def findMonthAux (y : Nat) : Nat → Nat → Nat → Nat × Nat
  | 0, m, doy => (m, doy)
  | fuel + 1, m, doy =>
    if m ≥ 12 then (12, doy)
    else if doy ≤ daysInMonth y m then (m, doy)
    else findMonthAux y fuel (m + 1) (doy - daysInMonth y m)

/-- CPython `_ord2ymd` on a 0-based day count (`n = 0` is 0001-01-01). -/
def ordToYmd (n : Nat) : Nat × Nat × Nat :=
  let n400 := n / 146097
  let r1 := n % 146097
  let n100 := r1 / 36524
  let r2 := r1 % 36524
  let n4 := r2 / 1461
  let r3 := r2 % 1461
  let n1 := r3 / 365
  let r4 := r3 % 365
  let year := n400 * 400 + n100 * 100 + n4 * 4 + n1 + 1
  if n1 = 4 ∨ n100 = 4 then (year - 1, 12, 31)
  else
    let (m, d) := findMonthAux year 12 1 (r4 + 1)
    (year, m, d)

/-- Inverse of `DateTime.toSec` (clamping pre-year-1 instants to the
epoch; every instant arising in this development is far above it). -/
def fromSec (t : Int) : DateTime :=
  let n := t.toNat
  let days := n / 86400
  let rem := n % 86400
  let ymd := ordToYmd days
  ⟨ymd.1, ymd.2.1, ymd.2.2, rem / 3600, rem % 3600 / 60, rem % 60⟩

/-- Python datetime minus a timedelta of `k` seconds, the arithmetic used by the
relative-time branches of `parse_job_time`. -/
def dtSub (now : DateTime) (k : Nat) : DateTime :=
  fromSec (now.toSec - (k : Int))

/-! ## Python string primitives (ASCII model) -/

/-- Python's `str.strip` whitespace class (ASCII part of `\s`):
space, tab, newline, carriage return, vertical tab, form feed. -/
def isPySpace (c : Char) : Bool :=
  c.toNat == 32 || c.toNat == 9 || c.toNat == 10 || c.toNat == 13 ||
  c.toNat == 11 || c.toNat == 12

/-- ASCII decimal digit (Python `\d` on ASCII input). -/
def isDigitC (c : Char) : Bool :=
  48 ≤ c.toNat && c.toNat ≤ 57

/-- ASCII `str.lower` on one character. -/
def lowerChar (c : Char) : Char :=
  if 65 ≤ c.toNat ∧ c.toNat ≤ 90 then Char.ofNat (c.toNat + 32) else c

def pyLower (l : List Char) : List Char := l.map lowerChar

/-- Left part of `str.strip`. -/
def lstripF (l : List Char) : List Char := l.dropWhile isPySpace

/-- One step of right-stripping: keep `c` unless everything after it
was stripped and `c` itself is strippable. -/
def rstripCons (p : Char → Bool) (c : Char) (r : List Char) : List Char :=
  match r with
  | [] => if p c then [] else [c]
  | _ => c :: r

/-- Right strip by a character predicate. -/
def rstripP (p : Char → Bool) : List Char → List Char
  | [] => []
  | c :: cs => rstripCons p c (rstripP p cs)

/-- Right part of `str.strip`. -/
def rstripF (l : List Char) : List Char := rstripP isPySpace l

def pyStrip (l : List Char) : List Char := rstripF (lstripF l)

/-- Python `s.strip(chars)` for a character class `p`. -/
def stripBoth (p : Char → Bool) (l : List Char) : List Char :=
  rstripP p (l.dropWhile p)

/-- True when `needle` occurs at the start of `hay`. -/
def startsWithL : List Char → List Char → Bool
  | [], _ => true
  | _ :: _, [] => false
  | p :: ps, c :: cs => p == c && startsWithL ps cs

/-- Python's `needle in hay` for strings. -/
def containsSub (pat : List Char) : List Char → Bool
  | [] => startsWithL pat []
  | c :: cs => startsWithL pat (c :: cs) || containsSub pat cs

/-- Python's `hay.replace(pat, '', 1)` for a nonempty `pat`. -/
def replaceFirstL (pat : List Char) : List Char → List Char
  | [] => []
  | c :: cs =>
    if startsWithL pat (c :: cs) then List.drop pat.length (c :: cs)
    else c :: replaceFirstL pat cs

/-- Value of a digit run, as Python `int` reads it. -/
def digitsVal (l : List Char) : Nat :=
  l.foldl (fun a c => a * 10 + (c.toNat - 48)) 0

/-- Maximal digit run at the head (`\d+` / `\d{k,}` greediness). -/
def takeDigits : List Char → List Char × List Char
  | [] => ([], [])
  | c :: cs =>
    if isDigitC c then
      let p := takeDigits cs
      (c :: p.1, p.2)
    else ([], c :: cs)

/-- Greedy `\s*` (backtracking into it never helps in the source's
patterns, since each is followed by a literal non-space). -/
def skipSpaces (l : List Char) : List Char := l.dropWhile isPySpace

/-! ## `parse_job_time` (scraper.py lines 60-117) -/

inductive RelUnit
  | minute | hour | day | week
deriving DecidableEq, Repr

def unitSecs : RelUnit → Nat
  | .minute => 60
  | .hour => 3600
  | .day => 86400
  | .week => 604800

/-- Word form of a unit as it appears in the source's first regex. -/
def unitWord : RelUnit → List Char
  | .minute => ['m', 'i', 'n', 'u', 't', 'e']
  | .hour => ['h', 'o', 'u', 'r']
  | .day => ['d', 'a', 'y']
  | .week => ['w', 'e', 'e', 'k']

def unitShort : RelUnit → Char
  | .minute => 'm'
  | .hour => 'h'
  | .day => 'd'
  | .week => 'w'

/-- After the digit run of `(\d+)\s*(minute|hour|day|week)s?\s*ago`:
`\s*` then a unit word, then optional `s`, then `\s*`, then `ago`. -/
def matchUnitPart (r : List Char) : Option RelUnit :=
  let r1 := skipSpaces r
  let tryOne : RelUnit → Option RelUnit := fun u =>
    if startsWithL (unitWord u) r1 then
      let r2 := List.drop (unitWord u).length r1
      let agoOk : List Char → Bool := fun x =>
        startsWithL ['a', 'g', 'o'] (skipSpaces x)
      match r2 with
      | 's' :: r3 => if agoOk r3 || agoOk r2 then some u else none
      | _ => if agoOk r2 then some u else none
    else none
  match tryOne .minute with
  | some u => some u
  | none =>
    match tryOne .hour with
    | some u => some u
    | none =>
      match tryOne .day with
      | some u => some u
      | none => tryOne .week

/-- One match attempt of the relative-words regex at the current position:
a nonempty digit run is required at the head. -/
def matchRelAt (s : List Char) : Option (Nat × RelUnit) :=
  let p := takeDigits s
  if p.1.isEmpty then none
  else (matchUnitPart p.2).map (fun u => (digitsVal p.1, u))

/-- Model of `re.search(r'(\d+)\s*(minute|hour|day|week)s?\s*ago', s)`:
try every position left to right. -/
def searchRel : List Char → Option (Nat × RelUnit)
  | [] => none
  | c :: cs =>
    match matchRelAt (c :: cs) with
    | some r => some r
    | none => searchRel cs

/-- After the digit run of `(\d+)\s*(m|h|d|w)\s*ago`. -/
def matchShortPart (r : List Char) : Option RelUnit :=
  match skipSpaces r with
  | [] => none
  | c :: r2 =>
    let u? : Option RelUnit :=
      if c == 'm' then some .minute
      else if c == 'h' then some .hour
      else if c == 'd' then some .day
      else if c == 'w' then some .week
      else none
    match u? with
    | none => none
    | some u =>
      if startsWithL ['a', 'g', 'o'] (skipSpaces r2) then some u else none

def matchShortAt (s : List Char) : Option (Nat × RelUnit) :=
  let p := takeDigits s
  if p.1.isEmpty then none
  else (matchShortPart p.2).map (fun u => (digitsVal p.1, u))

/-- Model of `re.search(r'(\d+)\s*(m|h|d|w)\s*ago', s)`. -/
def searchShort : List Char → Option (Nat × RelUnit)
  | [] => none
  | c :: cs =>
    match matchShortAt (c :: cs) with
    | some r => some r
    | none => searchShort cs

def isSep (c : Char) : Bool := c.toNat == 47 || c.toNat == 45

/-- Trailing `\d{2,4}` of the date token: greedy, nothing follows it in
the pattern, so it takes `min 4` of the digit run and needs at least 2. -/
def absTail (d1 d2 : List Char) (s : List Char) :
    Option (List Char × List Char × List Char) :=
  let run := (takeDigits s).1
  let d3 := run.take 4
  if d3.length ≥ 2 then some (d1, d2, d3) else none

/-- Middle `\d{1,2}` plus separator (`sep` is `/` or dash) of the date token.  Two digits are taken when a
separator follows them; giving a digit back can never help because the
separator would then have to match a digit. -/
def absMid (d1 : List Char) (s : List Char) :
    Option (List Char × List Char × List Char) :=
  match s with
  | [] => none
  | c0 :: r0 =>
    if isDigitC c0 then
      match r0 with
      | [] => none
      | c1 :: r1 =>
        if isDigitC c1 then
          match r1 with
          | [] => none
          | c2 :: r2 => if isSep c2 then absTail d1 [c0, c1] r2 else none
        else if isSep c1 then absTail d1 [c0] r1 else none
    else none

/-- One attempt of `(\d{1,2}[sep]\d{1,2}[sep]\d{2,4})` at this position. -/
def matchAbsAt (s : List Char) :
    Option (List Char × List Char × List Char) :=
  match s with
  | [] => none
  | c0 :: r0 =>
    if isDigitC c0 then
      match r0 with
      | [] => none
      | c1 :: r1 =>
        if isDigitC c1 then
          match r1 with
          | [] => none
          | c2 :: r2 => if isSep c2 then absMid [c0, c1] r2 else none
        else if isSep c1 then absMid [c0] r1 else none
    else none

/-- Model of `re.search(r'(\d{1,2}[sep]\d{1,2}[sep]\d{2,4})', s)` (with `sep` a slash or dash), returning the
three digit components of the captured token. -/
def searchAbs : List Char → Option (List Char × List Char × List Char)
  | [] => none
  | c :: cs =>
    match matchAbsAt (c :: cs) with
    | some r => some r
    | none => searchAbs cs

/-- CPython `_strptime` `%m`: 1-2 digits, value 1-12, fully consumed. -/
def validMonthStr (s : List Char) : Bool :=
  (s.length == 1 || s.length == 2) && 1 ≤ digitsVal s && digitsVal s ≤ 12

/-- CPython `_strptime` `%d`: 1-2 digits, value 1-31, fully consumed
(calendar validation happens at `datetime` construction). -/
def validDayStr (s : List Char) : Bool :=
  (s.length == 1 || s.length == 2) && 1 ≤ digitsVal s && digitsVal s ≤ 31

/-- CPython `%y` pivot: 0-68 maps to 2000s, 69-99 to 1900s. -/
def yyMap (v : Nat) : Nat := if v ≤ 68 then 2000 + v else 1900 + v

/-- Model of `datetime.strptime(token, '%Y-%m-%d')` on token `d1-d2-d3`:
`%Y` is exactly four digits in CPython; year 0 raises. -/
def tryFmtY4 (d1 d2 d3 : List Char) : Option DateTime :=
  if d1.length = 4 ∧ 1 ≤ digitsVal d1 ∧ validMonthStr d2 ∧ validDayStr d3
      ∧ digitsVal d3 ≤ daysInMonth (digitsVal d1) (digitsVal d2) then
    some ⟨digitsVal d1, digitsVal d2, digitsVal d3, 0, 0, 0⟩
  else none

/-- Model of `datetime.strptime(token, '%m-%d-%Y')`. -/
def tryFmtMDY4 (d1 d2 d3 : List Char) : Option DateTime :=
  if validMonthStr d1 ∧ validDayStr d2 ∧ d3.length = 4 ∧ 1 ≤ digitsVal d3
      ∧ digitsVal d2 ≤ daysInMonth (digitsVal d3) (digitsVal d1) then
    some ⟨digitsVal d3, digitsVal d1, digitsVal d2, 0, 0, 0⟩
  else none

/-- Model of `datetime.strptime(token, '%y-%m-%d')`: `%y` is exactly two digits. -/
def tryFmtY2MD (d1 d2 d3 : List Char) : Option DateTime :=
  if d1.length = 2 ∧ validMonthStr d2 ∧ validDayStr d3
      ∧ digitsVal d3 ≤ daysInMonth (yyMap (digitsVal d1)) (digitsVal d2) then
    some ⟨yyMap (digitsVal d1), digitsVal d2, digitsVal d3, 0, 0, 0⟩
  else none

/-- Model of `datetime.strptime(token, '%m-%d-%y')`. -/
def tryFmtMDY2 (d1 d2 d3 : List Char) : Option DateTime :=
  if validMonthStr d1 ∧ validDayStr d2 ∧ d3.length = 2
      ∧ digitsVal d2 ≤ daysInMonth (yyMap (digitsVal d3)) (digitsVal d1) then
    some ⟨yyMap (digitsVal d3), digitsVal d1, digitsVal d2, 0, 0, 0⟩
  else none

/-- The source's format loop: first of `%Y-%m-%d`, `%m-%d-%Y`,
`%y-%m-%d`, `%m-%d-%y` that parses. -/
def tryFormats (d1 d2 d3 : List Char) : Option DateTime :=
  match tryFmtY4 d1 d2 d3 with
  | some t => some t
  | none =>
    match tryFmtMDY4 d1 d2 d3 with
    | some t => some t
    | none =>
      match tryFmtY2MD d1 d2 d3 with
      | some t => some t
      | none => tryFmtMDY2 d1 d2 d3

/-- Whole absolute-date branch: token search plus the format loop
(`none` both when no token is found and when every format fails,
in which case the source falls through to the month-day branch). -/
def absResolve (s : List Char) : Option DateTime :=
  match searchAbs s with
  | none => none
  | some (d1, d2, d3) => tryFormats d1 d2 d3

def monthNames : List (List Char × Nat) :=
  [(['j', 'a', 'n'], 1), (['f', 'e', 'b'], 2), (['m', 'a', 'r'], 3),
   (['a', 'p', 'r'], 4), (['m', 'a', 'y'], 5), (['j', 'u', 'n'], 6),
   (['j', 'u', 'l'], 7), (['a', 'u', 'g'], 8), (['s', 'e', 'p'], 9),
   (['o', 'c', 't'], 10), (['n', 'o', 'v'], 11), (['d', 'e', 'c'], 12)]

/-- After a month name: `\s+` then greedy `\d{1,2}` (the day digits). -/
def monthDayTail (m : Nat) (r : List Char) : Option (Nat × List Char) :=
  match r with
  | [] => none
  | c :: _ =>
    if isPySpace c then
      let run := (takeDigits (skipSpaces r)).1
      let dstr := run.take 2
      if dstr.isEmpty then none else some (m, dstr)
    else none

def matchMonthDayAt (s : List Char) : Option (Nat × List Char) :=
  let rec tryNames : List (List Char × Nat) → Option (Nat × List Char)
    | [] => none
    | (nm, m) :: rest =>
      if startsWithL nm s then monthDayTail m (List.drop nm.length s)
      else tryNames rest
  tryNames monthNames

/-- Model of `re.search(r'(jan|feb|...|dec)\s+\d{1,2}', s)`. -/
def searchMonthDay : List Char → Option (Nat × List Char)
  | [] => none
  | c :: cs =>
    match matchMonthDayAt (c :: cs) with
    | some r => some r
    | none => searchMonthDay cs

/-- Resolution of a matched month/day (scraper.py lines 108-113):
`strptime('%b %d')` fixes year 1900 first (so Feb 29 always raises and
the day must fit the 1900 month length), then the year is replaced by
the current one, rolled back by one if that lands strictly in the
future of `now`. -/
def monthDayResolve (now : DateTime) (m : Nat) (dstr : List Char) :
    Option DateTime :=
  if validDayStr dstr ∧ digitsVal dstr ≤ daysInMonth 1900 m then
    some (if now.toSec <
        (⟨now.year, m, digitsVal dstr, 0, 0, 0⟩ : DateTime).toSec
      then ⟨now.year - 1, m, digitsVal dstr, 0, 0, 0⟩
      else ⟨now.year, m, digitsVal dstr, 0, 0, 0⟩)
  else none

/-- Month-name branch of `parse_job_time` (lines 105-115). -/
def monthDayBranch (now : DateTime) (s : List Char) : Option DateTime :=
  match searchMonthDay s with
  | none => none
  | some (m, dstr) => monthDayResolve now m dstr

/-- Pattern cascade of `parse_job_time` after preprocessing. -/
def parseCore (now : DateTime) (s : List Char) : Option DateTime :=
  match searchRel s with
  | some r => some (dtSub now (r.1 * unitSecs r.2))
  | none =>
    match searchShort s with
    | some r => some (dtSub now (r.1 * unitSecs r.2))
    | none =>
      match absResolve s with
      | some t => some t
      | none => monthDayBranch now s

def repostedL : List Char := ['r', 'e', 'p', 'o', 's', 't', 'e', 'd']

/-- Preprocessing of `parse_job_time`: lower-case, strip, then remove the
first occurrence of `reposted` (if any) and strip again. -/
def preprocessTime (l : List Char) : List Char :=
  let t := pyStrip (pyLower l)
  if containsSub repostedL t then pyStrip (replaceFirstL repostedL t) else t

/-- The time normalizer `parse_job_time` (scraper.py lines 60-117). -/
def parse_job_time (now : DateTime) (s : String) : Option DateTime :=
  parseCore now (preprocessTime s.data)

/-! ## Listing records and adapters -/

/-- One job record, with `posted_datetime` kept as a `DateTime` (the
source serializes it with `strftime('%Y-%m-%d %H:%M:%S')` and re-parses
it for sorting; at second granularity that round-trip is the identity). -/
structure Job where
  title : String
  company : String
  location : String
  posted_ago : String
  posted_datetime : DateTime
  url : String
  source : String
deriving DecidableEq, Repr

def pyStripS (s : String) : String := String.mk (pyStrip s.data)

def pyLowerS (s : String) : String := String.mk (pyLower s.data)

/-- Python `s.startswith('/')`. -/
def startsSlash (s : String) : Bool :=
  match s.data with
  | '/' :: _ => true
  | _ => false

/-- String concatenation routed through the char-list model. -/
def strCat (a b : String) : String := String.mk (a.data ++ b.data)

/-- One Dribbble listing container, as the texts/attributes the adapter
reads from it; `none` models a Playwright lookup that raises (the item
is then skipped by the bare `except`) or a `None` attribute. -/
structure DribbbleItem where
  posted_on : Option String
  href : Option String
  title : Option String
  company : Option String
  location : Option String
deriving DecidableEq, Repr

/-- Resolution of the Dribbble detail href (line 203): prefix the base
URL when the attribute is a non-empty root-relative path. -/
def dribbbleUrl (h : String) : String :=
  if h ≠ "" ∧ startsSlash h then strCat "https://dribbble.com" h else h

/-- Per-wrapper body of the Dribbble loop (scraper.py lines 195-220):
time first, drop on unparseable/stale, resolve relative href, drop on
falsy url, then the remaining fields. -/
def dribbbleExtract (now : DateTime) (th : Int) (it : DribbbleItem) :
    Option Job :=
  match it.posted_on with
  | none => none
  | some t0 =>
    match parse_job_time now (pyStripS t0) with
    | none => none
    | some pd =>
      if pd.toSec ≤ th then none
      else
        match it.href with
        | none => none
        | some h =>
          if dribbbleUrl h = "" then none
          else
            match it.title, it.company, it.location with
            | some ti, some co, some lo =>
              some ⟨pyStripS ti, pyStripS co, pyStripS lo, pyStripS t0, pd,
                dribbbleUrl h, "Dribbble"⟩
            | _, _, _ => none

/-- The adapter `scrape_dribbble_jobs` restricted to its extraction loop: navigation
and selector-timeout failures return the empty list, which corresponds
to an empty container list here. -/
def scrape_dribbble_jobs (now : DateTime) (th : Int)
    (items : List DribbbleItem) : List Job :=
  items.filterMap (dribbbleExtract now th)

/-- Regional-indicator (flag emoji) range removed by the Remote
Rocketship location cleanup. -/
def emojiFlag (c : Char) : Bool :=
  0x1F1E6 ≤ c.toNat && c.toNat ≤ 0x1F1FF

/-- Python `s.replace(pat, '')` for nonempty `pat` (fueled: every step
consumes at least one character). -/
def replaceAllAux (pat : List Char) : Nat → List Char → List Char
  | 0, s => s
  | _ + 1, [] => []
  | fuel + 1, c :: cs =>
    if startsWithL pat (c :: cs) && !pat.isEmpty then
      replaceAllAux pat fuel (List.drop pat.length (c :: cs))
    else c :: replaceAllAux pat fuel cs

def replaceAllL (pat l : List Char) : List Char :=
  replaceAllAux pat l.length l

/-- Model of `re.sub(r'\s{2,}', ' ', s)`: each whitespace run of length at least
two becomes a single space; lone whitespace characters stay. -/
def collapse2Aux : Nat → List Char → List Char
  | 0, s => s
  | _ + 1, [] => []
  | _ + 1, [c] => [c]
  | fuel + 1, c1 :: c2 :: rest =>
    if isPySpace c1 && isPySpace c2 then ' ' :: collapse2Aux fuel (skipSpaces rest)
    else c1 :: collapse2Aux fuel (c2 :: rest)

def collapse2 (l : List Char) : List Char := collapse2Aux l.length l

def isSpComma (c : Char) : Bool := c == ' ' || c == ','

/-- Location cleanup of the Remote Rocketship adapter (lines 289-293):
strip flag emoji, drop the mojibake dash marker, every `Remote` and
`+`, collapse long whitespace runs, strip spaces/commas, and fall back
to `Remote/Global` when nothing is left. -/
def rrSanitizeLoc (l : List Char) : List Char :=
  let l1 := pyStrip (l.filter (fun c => !emojiFlag c))
  let l2 := pyStrip (replaceAllL ['+']
    (replaceAllL "Remote".data (replaceAllL "â€“ Remote".data l1)))
  let l3 := stripBoth isSpComma (collapse2 l2)
  if l3.isEmpty then "Remote/Global".data else l3

def rrBase : String := "https://www.remoterocketship.com"

/-- One Remote Rocketship listing container.  `title = none` models a
raising lookup (item skipped); `href` is the raw attribute;
`companyVis`/`postedVis` are the `is_visible()` results; `loc = none`
models a missing/hidden/raising location element (default kept). -/
structure RRItem where
  title : Option String
  href : Option String
  companyVis : Bool
  company : String
  postedVis : Bool
  posted : String
  loc : Option String
deriving DecidableEq, Repr

/-- Company text of an RR item: visible text or the `"N/A"` fallback. -/
def rrCompany (it : RRItem) : String :=
  if it.companyVis then pyStripS it.company else "N/A"

/-- Posted-ago text of an RR item: visible text or `"N/A"`. -/
def rrPostedAgo (it : RRItem) : String :=
  if it.postedVis then pyStripS it.posted else "N/A"

/-- Location of an RR item: element text if present, default otherwise,
then the cleanup pass. -/
def rrLocation (it : RRItem) : String :=
  String.mk (rrSanitizeLoc (match it.loc with
    | some lt => (pyStripS lt).data
    | none => "Remote/Global".data))

/-- Per-item body of the Remote Rocketship loop (lines 252-308). -/
def rrExtract (now : DateTime) (th : Int) (it : RRItem) : Option Job :=
  match it.title with
  | none => none
  | some t0 =>
    match it.href with
    | none => none
    | some rel =>
      if rel = "" then none
      else if strCat rrBase rel = "" then none
      else
        match parse_job_time now (rrPostedAgo it) with
        | none => none
        | some pd =>
          if pd.toSec ≤ th then none
          else
            some ⟨pyStripS t0, rrCompany it, rrLocation it, rrPostedAgo it,
              pd, strCat rrBase rel, "RemoteRocketship"⟩

def rrProcess (now : DateTime) (th : Int) (items : List RRItem) : List Job :=
  items.filterMap (rrExtract now th)

/-- Selector-failover loop of `scrape_remote_rocketship_jobs` (lines
240-323): one entry per selector set; `none` is a `wait_for_selector`
timeout (continue), an empty item list also continues, and the loop
stops as soon as the accumulated `jobs` list is nonempty. -/
def rrLoop (now : DateTime) (th : Int) (jobs : List Job) :
    List (Option (List RRItem)) → List Job
  | [] => jobs
  | none :: rest => rrLoop now th jobs rest
  | some items :: rest =>
    if items.isEmpty then rrLoop now th jobs rest
    else
      let jobs2 := jobs ++ rrProcess now th items
      if jobs2.isEmpty then rrLoop now th jobs2 rest else jobs2

def scrape_remote_rocketship_jobs (now : DateTime) (th : Int)
    (sets : List (Option (List RRItem))) : List Job :=
  rrLoop now th [] sets

/-! ## Aggregation (scraper.py lines 761-787) -/

/-- Collapse `\s+` runs to single spaces (`re.sub(r'\s+', ' ', s)`):
map every whitespace character to a space, then squash repeats. -/
def squashSpaces : List Char → List Char
  | [] => []
  | [c] => [c]
  | c1 :: c2 :: rest =>
    if c1 == ' ' && c2 == ' ' then squashSpaces (c2 :: rest)
    else c1 :: squashSpaces (c2 :: rest)

def collapseWs (l : List Char) : List Char :=
  squashSpaces (l.map (fun c => if isPySpace c then ' ' else c))

/-- Dedup key (lines 766-770): the url, except that BuiltIn records use
`source:normalized_title:normalized_posted_ago`. -/
def dedupeKey (j : Job) : String :=
  if j.source = "BuiltIn" then
    String.mk (j.source.data ++
      ':' :: (collapseWs (pyLower (pyStrip j.title.data)) ++
        ':' :: pyLower (pyStrip j.posted_ago.data)))
  else j.url

/-- First-seen-wins map building (lines 764-774; Python dicts preserve
insertion order). -/
def dedupGo (seen : List String) : List Job → List Job
  | [] => []
  | j :: rest =>
    if dedupeKey j ∈ seen then dedupGo seen rest
    else j :: dedupGo (dedupeKey j :: seen) rest

def dedup (pool : List Job) : List Job := dedupGo [] pool

def jobKey (j : Job) : Int := j.posted_datetime.toSec

/-- Stable descending insertion by `posted_datetime`; together with
`sortDesc` this is the unique stable descending sort, hence the list
`sorted(..., reverse=True)` produces. -/
def insertDesc (j : Job) : List Job → List Job
  | [] => [j]
  | x :: xs =>
    if jobKey x ≤ jobKey j then j :: x :: xs else x :: insertDesc j xs

def sortDesc : List Job → List Job
  | [] => []
  | j :: rest => insertDesc j (sortDesc rest)

/-- The list written to `jobs.json` (lines 762-787): dedup then sort
when the raw pool is nonempty, the empty array otherwise. -/
def finalFeed (pool : List Job) : List Job :=
  if pool.isEmpty then [] else sortDesc (dedup pool)

/-- Slash character class of `job_url.strip('/')` (line 656). -/
def isSlash (c : Char) : Bool := c.toNat == 47

/-- The `SKIP_PATHS` blacklist of the Up2Staff adapter (line 598). -/
def u2SkipPaths : List String :=
  ["/cart", "/checkout", "/jobs-dashboard", "/myaccount", "/maltings",
    "/post-a-job"]

/-- `BASE_URL` of the Up2Staff adapter: the registry url
`https://up2staff.com/` with slashes stripped (line 599). -/
def u2Base : String := "https://up2staff.com"

/-- One Up2Staff listing wrapper, as the texts/attributes the adapter
reads from it: `href` is the chosen title link's attribute (`none` when
no `<a href>` was found in the h3/h4/h5 cascade or the fallback, line
651's skip); `timeText`/`companyText`/`locationText` are `none` when
the corresponding element lookup found nothing, in which case the
source keeps its `'N/A'` / `'Remote/Global'` initial values. -/
structure U2Item where
  href : Option String
  titleText : String
  timeText : Option String
  companyText : Option String
  locationText : Option String
deriving DecidableEq, Repr

/-- Time string of an Up2Staff wrapper: found text (`get_text(strip)`),
or the `'N/A'` initial value of line 640. -/
def u2TimeText (it : U2Item) : String :=
  match it.timeText with
  | some t => pyStripS t
  | none => "N/A"

/-- Company of an Up2Staff wrapper (lines 672-676). -/
def u2Company (it : U2Item) : String :=
  match it.companyText with
  | some c => pyStripS c
  | none => "N/A"

/-- Location of an Up2Staff wrapper (lines 673-679). -/
def u2Location (it : U2Item) : String :=
  match it.locationText with
  | some l => pyStripS l
  | none => "Remote/Global"

/-- Per-wrapper body of the Up2Staff API loop (scraper.py lines
637-690): skip when no link is found, when the href contains a
`SKIP_PATHS` fragment, or when it equals the base url after stripping
slashes; then the usual time normalization and recency drop.  Unlike
the page-based adapters there is no `if not job_url: continue` guard —
an empty href passes both url checks and is stored as-is. -/
def u2Extract (now : DateTime) (th : Int) (it : U2Item) : Option Job :=
  match it.href with
  | none => none
  | some u =>
    if u2SkipPaths.any (fun p => containsSub p.data u.data) then none
    else if String.mk (stripBoth isSlash u.data) = u2Base then none
    else
      match parse_job_time now (u2TimeText it) with
      | none => none
      | some pd =>
        if pd.toSec ≤ th then none
        else
          some ⟨pyStripS it.titleText, u2Company it, u2Location it,
            u2TimeText it, pd, u, "Up2Staff"⟩

/-- The adapter `scrape_up2staff_api_jobs` restricted to its extraction
loop: HTTP/JSON failures and empty wrapper lists return the empty list,
corresponding to an empty item list here. -/
def scrape_up2staff_api_jobs (now : DateTime) (th : Int)
    (items : List U2Item) : List Job :=
  items.filterMap (u2Extract now th)

/-- Raw pool of a run whose registry entries are Dribbble, Remote
Rocketship and Up2Staff pages (the three adapters embedded here); each
entry contributes independently, in registry order (lines 714-749). -/
def rawPool (now : DateTime) (th : Int)
    (dPages : List (List DribbbleItem))
    (rPages : List (List (Option (List RRItem))))
    (uPages : List (List U2Item)) : List Job :=
  (dPages.map (scrape_dribbble_jobs now th)).flatten ++
    (rPages.map (scrape_remote_rocketship_jobs now th)).flatten ++
    (uPages.map (scrape_up2staff_api_jobs now th)).flatten

/-! ## Supporting definitions for the claim statements -/

/-- The char list of `"3 hours ago"`, used to state substring claims. -/
def payloadHoursAgo : List Char :=
  ['3', ' ', 'h', 'o', 'u', 'r', 's', ' ', 'a', 'g', 'o']

/-- Word-form suffix `" <unit>s ago"` of the relative pattern. -/
def wordSuffix (u : RelUnit) : List Char :=
  ' ' :: (unitWord u ++ ['s', ' ', 'a', 'g', 'o'])

/-- Shorthand suffix `"<u> ago"`. -/
def shortSuffix (u : RelUnit) : List Char :=
  unitShort u :: [' ', 'a', 'g', 'o']

/-- The `p`-status of the head character (false for the empty list). -/
def headIs (p : Char → Bool) : List Char → Bool
  | [] => false
  | c :: _ => p c

/-- Predicate for C2: a non-BuiltIn record with the given url. -/
def urlPredNB (u : String) (j : Job) : Bool :=
  (j.source != "BuiltIn") && (j.url == u)

/-- A fixed run instant used by concrete witnesses: 2025-01-10 12:00:00. -/
def cNow : DateTime := ⟨2025, 1, 10, 12, 0, 0⟩

/-- The `TIME_THRESHOLD` for that instant: `now - 48h` (line 25). -/
def cTh : Int := cNow.toSec - 172800

/-- A Remote Rocketship container whose posted element is hidden, so its
time string is the unparseable `"N/A"` sentinel: it never survives the
recency filter. -/
def rrStale : RRItem := ⟨some "Old Job", some "/old", false, "", false, "", none⟩

/-- A fresh Remote Rocketship container (posted one hour ago). -/
def rrFresh : RRItem :=
  ⟨some "New Job", some "/new-job", true, "Acme", true, "1 hour ago", none⟩

/-- A fresh Dribbble container. -/
def dItemFresh : DribbbleItem :=
  ⟨some "2 hours ago", some "/j1", some "Product Designer", some "Acme",
    some "Remote"⟩

/-- Two BuiltIn records sharing a url but with different titles. -/
def biJob1 : Job :=
  ⟨"Designer A", "c", "l", "2 hours ago", ⟨2025, 1, 10, 10, 0, 0⟩,
    "https://x/job/1", "BuiltIn"⟩

def biJob2 : Job :=
  ⟨"Designer B", "c", "l", "2 hours ago", ⟨2025, 1, 10, 10, 0, 0⟩,
    "https://x/job/1", "BuiltIn"⟩

/-- Two non-BuiltIn records sharing a url. -/
def plJob1 : Job :=
  ⟨"Product Designer", "c", "l", "2 hours ago", ⟨2025, 1, 10, 10, 0, 0⟩,
    "https://x/job/1", "Dribbble"⟩

def plJob2 : Job :=
  ⟨"Product  designer", "c", "l", "3 hours ago", ⟨2025, 1, 10, 9, 0, 0⟩,
    "https://x/job/1", "WeWorkRemotely"⟩

/-- The instant 2024-03-01, a `now` from which 2024-02-29 is a real, past date. -/
def nowMar2024 : DateTime := ⟨2024, 3, 1, 0, 0, 0⟩

/-- The record `dItemFresh` extracts to at `cNow`/`cTh`. -/
def cJobD : Job :=
  ⟨"Product Designer", "Acme", "Remote", "2 hours ago",
    ⟨2025, 1, 10, 10, 0, 0⟩, "https://dribbble.com/j1", "Dribbble"⟩

/-- An Up2Staff wrapper whose title link has an empty `href` attribute
(BeautifulSoup's `find('a', href=True)` matches `<a href="">`) and a
fresh time string. -/
def u2Empty : U2Item := ⟨some "", "Design Lead", some "1 hour ago", none, none⟩

/-! ## Helper lemmas -/

theorem digit_not_space {c : Char} (h : isDigitC c = true) :
    isPySpace c = false := by
  simp only [isDigitC, Bool.and_eq_true, decide_eq_true_eq] at h
  simp only [isPySpace, Bool.or_eq_false_iff, beq_eq_false_iff_ne, ne_eq]
  omega

theorem digit_lowerChar {c : Char} (h : isDigitC c = true) :
    lowerChar c = c := by
  simp only [isDigitC, Bool.and_eq_true, decide_eq_true_eq] at h
  unfold lowerChar
  rw [if_neg]
  omega

theorem lowerChar_not_digit {c : Char} (h : isDigitC c = false) :
    isDigitC (lowerChar c) = false := by
  simp only [isDigitC, Bool.and_eq_false_iff, decide_eq_false_iff_not] at h ⊢
  unfold lowerChar
  split
  · rename_i hc
    have : (Char.ofNat (c.toNat + 32)).toNat = c.toNat + 32 := by
      unfold Char.ofNat
      rw [dif_pos]
      · rfl
      · left; omega
    omega
  · omega

theorem char_ne_of_digit {c x : Char} (h : isDigitC c = true)
    (hx : isDigitC x = false) : (x == c) = false := by
  rw [beq_eq_false_iff_ne]
  intro he
  rw [he, h] at hx
  exact absurd hx (by decide)

theorem takeDigits_append {ds rest : List Char}
    (hd : ∀ c ∈ ds, isDigitC c = true) (hr : headIs isDigitC rest = false) :
    takeDigits (ds ++ rest) = (ds, rest) := by
  induction ds with
  | nil =>
    simp only [List.nil_append]
    cases rest with
    | nil => rfl
    | cons c cs =>
      simp only [headIs] at hr
      simp [takeDigits, hr]
  | cons d ds2 ih =>
    have hdd : isDigitC d = true := hd d (by simp)
    have ih2 := ih (fun c hc => hd c (by simp [hc]))
    simp only [List.cons_append, takeDigits, hdd, if_true, List.append_eq, ih2]

theorem dropWhile_append_headF {p : Char → Bool} {a b : List Char}
    (hb : headIs p b = false) :
    List.dropWhile p (a ++ b) = List.dropWhile p a ++ b := by
  induction a with
  | nil =>
    simp only [List.nil_append, List.dropWhile_nil]
    cases b with
    | nil => rfl
    | cons c cs =>
      simp only [headIs] at hb
      simp [List.dropWhile_cons, hb]
  | cons x a2 ih =>
    simp only [List.cons_append, List.dropWhile_cons]
    cases hx : p x with
    | true => simpa using ih
    | false => simp

theorem rstripP_append_ne {p : Char → Bool} {b : List Char}
    (hb : rstripP p b ≠ []) (a : List Char) :
    rstripP p (a ++ b) = a ++ rstripP p b := by
  induction a with
  | nil => simp
  | cons x a2 ih =>
    simp only [List.cons_append, rstripP, List.append_eq]
    rw [ih]
    cases h2 : a2 ++ rstripP p b with
    | nil =>
      rcases List.append_eq_nil.mp h2 with ⟨-, h3⟩
      exact absurd h3 hb
    | cons y ys => simp [rstripCons]

theorem rstripP_append_nil {p : Char → Bool} {b : List Char}
    (hb : rstripP p b = []) (a : List Char) :
    rstripP p (a ++ b) = rstripP p a := by
  induction a with
  | nil => simpa using hb
  | cons x a2 ih =>
    simp only [List.cons_append, rstripP, List.append_eq, ih]

theorem mem_dropWhile {p : Char → Bool} {x : Char} {l : List Char}
    (h : x ∈ List.dropWhile p l) : x ∈ l := by
  induction l with
  | nil => simp at h
  | cons c cs ih =>
    rw [List.dropWhile_cons] at h
    split at h
    · exact List.mem_cons_of_mem c (ih h)
    · exact h

theorem containsSub_digit_drop {a b : List Char}
    (ha : ∀ c ∈ a, isDigitC c = true) :
    containsSub repostedL (a ++ b) = containsSub repostedL b := by
  induction a with
  | nil => simp
  | cons c a2 ih =>
    have hc : isDigitC c = true := ha c (by simp)
    have hne : (('r' : Char) == c) = false :=
      char_ne_of_digit hc (by decide)
    simp only [List.cons_append, containsSub, repostedL, startsWithL, hne,
      Bool.false_and, Bool.false_or, List.append_eq]
    have ih2 := ih (fun x hx => ha x (by simp [hx]))
    simp only [repostedL] at ih2
    exact ih2

theorem matchRelAt_cons_nonDigit {c : Char} {cs : List Char}
    (hc : isDigitC c = false) : matchRelAt (c :: cs) = none := by
  simp [matchRelAt, takeDigits, hc]

theorem searchRel_nonDigits_drop {a b : List Char}
    (ha : ∀ c ∈ a, isDigitC c = false) :
    searchRel (a ++ b) = searchRel b := by
  induction a with
  | nil => simp
  | cons c a2 ih =>
    simp only [List.cons_append, searchRel, List.append_eq,
      matchRelAt_cons_nonDigit (ha c (by simp))]
    exact ih (fun x hx => ha x (by simp [hx]))

theorem matchRelAt_digits {ds b : List Char} (hne : ds ≠ [])
    (hd : ∀ c ∈ ds, isDigitC c = true) (hb : headIs isDigitC b = false) :
    matchRelAt (ds ++ b) =
      (matchUnitPart b).map (fun u => (digitsVal ds, u)) := by
  simp only [matchRelAt, takeDigits_append hd hb]
  rw [if_neg]
  simpa using hne

theorem searchRel_digits_drop {ds b : List Char}
    (hd : ∀ c ∈ ds, isDigitC c = true) (hb : headIs isDigitC b = false)
    (hu : matchUnitPart b = none) :
    searchRel (ds ++ b) = searchRel b := by
  induction ds with
  | nil => simp
  | cons d ds2 ih =>
    have step : matchRelAt (d :: (ds2 ++ b)) = none := by
      have h0 := @matchRelAt_digits (d :: ds2) b (by simp) hd hb
      rw [List.cons_append] at h0
      rw [h0, hu]
      rfl
    simp only [List.cons_append, searchRel, List.append_eq, step]
    exact ih (fun c hc => hd c (by simp [hc]))

theorem matchShortAt_cons_nonDigit {c : Char} {cs : List Char}
    (hc : isDigitC c = false) : matchShortAt (c :: cs) = none := by
  simp [matchShortAt, takeDigits, hc]

theorem matchShortAt_digits {ds b : List Char} (hne : ds ≠ [])
    (hd : ∀ c ∈ ds, isDigitC c = true) (hb : headIs isDigitC b = false) :
    matchShortAt (ds ++ b) =
      (matchShortPart b).map (fun u => (digitsVal ds, u)) := by
  simp only [matchShortAt, takeDigits_append hd hb]
  rw [if_neg]
  simpa using hne

theorem mem_insertDesc {a j : Job} {l : List Job} :
    a ∈ insertDesc j l ↔ a = j ∨ a ∈ l := by
  induction l with
  | nil => simp [insertDesc]
  | cons x xs ih =>
    simp only [insertDesc]
    split
    · simp
    · simp only [List.mem_cons, ih]
      tauto

theorem pairwise_insertDesc {j : Job} {l : List Job}
    (h : l.Pairwise (fun a b => jobKey b ≤ jobKey a)) :
    (insertDesc j l).Pairwise (fun a b => jobKey b ≤ jobKey a) := by
  induction l with
  | nil => simp [insertDesc]
  | cons x xs ih =>
    rw [List.pairwise_cons] at h
    obtain ⟨hx, hxs⟩ := h
    simp only [insertDesc]
    split
    · rename_i hle
      rw [List.pairwise_cons]
      refine ⟨?_, ?_⟩
      · intro y hy
        rcases List.mem_cons.mp hy with rfl | hy2
        · exact hle
        · exact le_trans (hx y hy2) hle
      · rw [List.pairwise_cons]
        exact ⟨hx, hxs⟩
    · rename_i hgt
      rw [List.pairwise_cons]
      refine ⟨?_, ih hxs⟩
      intro y hy
      rcases mem_insertDesc.mp hy with rfl | hy2
      · exact le_of_lt (lt_of_not_le hgt)
      · exact hx y hy2

theorem pairwise_sortDesc (l : List Job) :
    (sortDesc l).Pairwise (fun a b => jobKey b ≤ jobKey a) := by
  induction l with
  | nil => simp [sortDesc]
  | cons j rest ih => exact pairwise_insertDesc ih

theorem mem_sortDesc {a : Job} {l : List Job} :
    a ∈ sortDesc l ↔ a ∈ l := by
  induction l with
  | nil => simp [sortDesc]
  | cons j rest ih =>
    simp only [sortDesc, mem_insertDesc, ih, List.mem_cons]

theorem mem_dedupGo {a : Job} {l : List Job} {seen : List String}
    (h : a ∈ dedupGo seen l) : a ∈ l := by
  induction l generalizing seen with
  | nil => simp [dedupGo] at h
  | cons j rest ih =>
    simp only [dedupGo] at h
    split at h
    · exact List.mem_cons_of_mem j (ih h)
    · rcases List.mem_cons.mp h with rfl | h2
      · exact List.mem_cons_self a rest
      · exact List.mem_cons_of_mem j (ih h2)

theorem mem_finalFeed {a : Job} {pool : List Job}
    (h : a ∈ finalFeed pool) : a ∈ pool := by
  unfold finalFeed at h
  split at h
  · simp at h
  · exact mem_dedupGo (mem_sortDesc.mp h)

theorem absTail_fst {d1 d2 s : List Char} {r : List Char × List Char × List Char}
    (h : absTail d1 d2 s = some r) : r.1 = d1 := by
  simp only [absTail] at h
  split at h
  · cases h
    rfl
  · cases h

theorem absMid_fst {d1 s : List Char} {r : List Char × List Char × List Char}
    (h : absMid d1 s = some r) : r.1 = d1 := by
  unfold absMid at h
  repeat' split at h
  all_goals first
    | cases h
    | exact absTail_fst h

theorem matchAbsAt_fst_len {s : List Char}
    {r : List Char × List Char × List Char}
    (h : matchAbsAt s = some r) : r.1.length ≤ 2 := by
  unfold matchAbsAt at h
  repeat' split at h
  all_goals first
    | cases h
    | (rw [absMid_fst h]; simp)

theorem searchAbs_fst_len {s : List Char}
    {r : List Char × List Char × List Char}
    (h : searchAbs s = some r) : r.1.length ≤ 2 := by
  induction s with
  | nil => cases h
  | cons c cs ih =>
    simp only [searchAbs] at h
    split at h
    · rename_i h2
      cases h
      exact matchAbsAt_fst_len h2
    · exact ih h

theorem tryFmtY4_none_of_len {d1 d2 d3 : List Char}
    (h : d1.length ≤ 2) : tryFmtY4 d1 d2 d3 = none := by
  unfold tryFmtY4
  rw [if_neg]
  rintro ⟨h4, -⟩
  omega

theorem dribbbleExtract_inv {now : DateTime} {th : Int} {it : DribbbleItem}
    {j : Job} (h : dribbbleExtract now th it = some j) :
    th < jobKey j ∧ j.url ≠ "" := by
  unfold dribbbleExtract at h
  repeat' split at h
  all_goals try simp at h
  all_goals subst h
  all_goals refine ⟨?_, by assumption⟩
  all_goals simp only [jobKey]
  all_goals omega

theorem rrExtract_inv {now : DateTime} {th : Int} {it : RRItem}
    {j : Job} (h : rrExtract now th it = some j) :
    th < jobKey j ∧ j.url ≠ "" := by
  unfold rrExtract at h
  repeat' split at h
  all_goals try simp at h
  all_goals subst h
  all_goals refine ⟨?_, by assumption⟩
  all_goals simp only [jobKey]
  all_goals omega

theorem rrProcess_inv {now : DateTime} {th : Int} {items : List RRItem}
    {j : Job} (h : j ∈ rrProcess now th items) :
    th < jobKey j ∧ j.url ≠ "" := by
  obtain ⟨it, -, he⟩ := List.mem_filterMap.mp h
  exact rrExtract_inv he

theorem dribbble_inv {now : DateTime} {th : Int} {items : List DribbbleItem}
    {j : Job} (h : j ∈ scrape_dribbble_jobs now th items) :
    th < jobKey j ∧ j.url ≠ "" := by
  obtain ⟨it, -, he⟩ := List.mem_filterMap.mp h
  exact dribbbleExtract_inv he

theorem rrLoop_inv {now : DateTime} {th : Int}
    (sets : List (Option (List RRItem))) (jobs : List Job)
    (hj : ∀ j ∈ jobs, th < jobKey j ∧ j.url ≠ "") :
    ∀ j ∈ rrLoop now th jobs sets, th < jobKey j ∧ j.url ≠ "" := by
  induction sets generalizing jobs with
  | nil => simpa [rrLoop] using hj
  | cons s rest ih =>
    cases s with
    | none => exact ih jobs hj
    | some items =>
      simp only [rrLoop]
      split
      · exact ih jobs hj
      · have hj2 : ∀ j ∈ jobs ++ rrProcess now th items,
            th < jobKey j ∧ j.url ≠ "" := by
          intro j hmem
          rcases List.mem_append.mp hmem with h1 | h2
          · exact hj j h1
          · exact rrProcess_inv h2
        split
        · exact ih (jobs ++ rrProcess now th items) hj2
        · exact hj2

theorem rr_inv {now : DateTime} {th : Int}
    {sets : List (Option (List RRItem))} {j : Job}
    (h : j ∈ scrape_remote_rocketship_jobs now th sets) :
    th < jobKey j ∧ j.url ≠ "" := by
  exact rrLoop_inv sets [] (by simp) j h

theorem u2Extract_inv {now : DateTime} {th : Int} {it : U2Item}
    {j : Job} (h : u2Extract now th it = some j) :
    th < jobKey j ∧ j.source = "Up2Staff" := by
  unfold u2Extract at h
  repeat' split at h
  all_goals try simp at h
  all_goals subst h
  all_goals refine ⟨?_, rfl⟩
  all_goals simp only [jobKey]
  all_goals omega

theorem u2_inv {now : DateTime} {th : Int} {items : List U2Item}
    {j : Job} (h : j ∈ scrape_up2staff_api_jobs now th items) :
    th < jobKey j ∧ j.source = "Up2Staff" := by
  obtain ⟨it, -, he⟩ := List.mem_filterMap.mp h
  exact u2Extract_inv he

theorem rawPool_inv {now : DateTime} {th : Int}
    {dPages : List (List DribbbleItem)}
    {rPages : List (List (Option (List RRItem)))}
    {uPages : List (List U2Item)} {j : Job}
    (h : j ∈ rawPool now th dPages rPages uPages) :
    th < jobKey j ∧ (j.source ≠ "Up2Staff" → j.url ≠ "") := by
  unfold rawPool at h
  rcases List.mem_append.mp h with h1 | h1
  · rcases List.mem_append.mp h1 with h2 | h2 <;>
      obtain ⟨l, hl, hj⟩ := List.mem_flatten.mp h2 <;>
      obtain ⟨page, -, rfl⟩ := List.mem_map.mp hl
    · obtain ⟨hlt, hne⟩ := dribbble_inv hj
      exact ⟨hlt, fun _ => hne⟩
    · obtain ⟨hlt, hne⟩ := rr_inv hj
      exact ⟨hlt, fun _ => hne⟩
  · obtain ⟨l, hl, hj⟩ := List.mem_flatten.mp h1
    obtain ⟨page, -, rfl⟩ := List.mem_map.mp hl
    obtain ⟨hlt, hsrc⟩ := u2_inv hj
    exact ⟨hlt, fun hne => absurd hsrc hne⟩

theorem pred_key {u : String} {j : Job} (h : urlPredNB u j = true) :
    dedupeKey j = u := by
  unfold urlPredNB at h
  rw [Bool.and_eq_true, bne_iff_ne, beq_iff_eq] at h
  unfold dedupeKey
  rw [if_neg h.1]
  exact h.2

theorem dedupGo_filter_dead {u : String} {pool : List Job}
    {seen : List String} (hs : u ∈ seen)
    (hb : ∀ j ∈ pool, j.source = "BuiltIn" → dedupeKey j ≠ u) :
    (dedupGo seen pool).filter (urlPredNB u) = [] := by
  induction pool generalizing seen with
  | nil => simp [dedupGo]
  | cons j rest ih =>
    simp only [dedupGo]
    split
    · exact ih hs (fun x hx => hb x (List.mem_cons_of_mem j hx))
    · rename_i hnot
      have hpj : urlPredNB u j = false := by
        cases hp : urlPredNB u j with
        | false => rfl
        | true => exact absurd (pred_key hp ▸ hs) hnot
      rw [List.filter_cons_of_neg (by simp [hpj])]
      exact ih (List.mem_cons_of_mem _ hs)
        (fun x hx => hb x (List.mem_cons_of_mem j hx))

theorem dedupGo_filter_first {u : String} {pool : List Job}
    {seen : List String} (hs : u ∉ seen)
    (hb : ∀ j ∈ pool, j.source = "BuiltIn" → dedupeKey j ≠ u) :
    (dedupGo seen pool).filter (urlPredNB u) =
      (pool.find? (urlPredNB u)).toList := by
  induction pool generalizing seen with
  | nil => simp [dedupGo]
  | cons j rest ih =>
    have hrest : ∀ x ∈ rest, x.source = "BuiltIn" → dedupeKey x ≠ u :=
      fun x hx => hb x (List.mem_cons_of_mem j hx)
    simp only [dedupGo]
    split
    · rename_i hseen
      have hpj : urlPredNB u j = false := by
        cases hp : urlPredNB u j with
        | false => rfl
        | true => exact absurd (pred_key hp ▸ hseen) hs
      rw [List.find?_cons_of_neg _ (by simp [hpj])]
      exact ih hs hrest
    · rename_i hnot
      cases hp : urlPredNB u j with
      | true =>
        rw [List.filter_cons_of_pos (by simp [hp]),
          List.find?_cons_of_pos _ (by simp [hp])]
        have : u ∈ dedupeKey j :: seen := by
          rw [pred_key hp]
          exact List.mem_cons_self _ _
        rw [dedupGo_filter_dead this hrest]
        rfl
      | false =>
        rw [List.filter_cons_of_neg (by simp [hp]),
          List.find?_cons_of_neg _ (by simp [hp])]
        have hki : u ∉ dedupeKey j :: seen := by
          intro hmem
          rcases List.mem_cons.mp hmem with he | hseen2
          · by_cases hsrc : j.source = "BuiltIn"
            · exact hb j (List.mem_cons_self _ _) hsrc he.symm
            · have : dedupeKey j = j.url := by
                unfold dedupeKey
                rw [if_neg hsrc]
              rw [this] at he
              have : urlPredNB u j = true := by
                unfold urlPredNB
                rw [Bool.and_eq_true, bne_iff_ne, beq_iff_eq]
                exact ⟨hsrc, he.symm⟩
              rw [this] at hp
              cases hp
          · exact hs hseen2
        exact ih hki hrest

theorem replaceFirstL_of_not_contains {pat l : List Char}
    (h : containsSub pat l = false) : replaceFirstL pat l = l := by
  induction l with
  | nil => rfl
  | cons c cs ih =>
    simp only [containsSub, Bool.or_eq_false_iff] at h
    simp only [replaceFirstL, h.1, Bool.false_eq_true, if_false, ih h.2]

theorem headIs_lstripF (l : List Char) :
    headIs isPySpace (lstripF l) = false := by
  induction l with
  | nil => rfl
  | cons c cs ih =>
    simp only [lstripF, List.dropWhile_cons]
    split
    · exact ih
    · rename_i hc
      simpa [headIs] using hc

theorem lstripF_of_headF {l : List Char} (h : headIs isPySpace l = false) :
    lstripF l = l := by
  cases l with
  | nil => rfl
  | cons c cs =>
    simp only [headIs] at h
    simp [lstripF, List.dropWhile_cons, h]

theorem headIs_rstripCons {p q : Char → Bool} {c : Char} {r : List Char}
    (h : q c = false) : headIs q (rstripCons p c r) = false := by
  cases r with
  | nil =>
    simp only [rstripCons]
    split
    · rfl
    · simpa [headIs] using h
  | cons y ys => simpa [rstripCons, headIs] using h

theorem headIs_rstripP {p q : Char → Bool} {l : List Char}
    (h : headIs q l = false) : headIs q (rstripP p l) = false := by
  cases l with
  | nil => rfl
  | cons c cs =>
    simp only [headIs] at h
    simp only [rstripP]
    exact headIs_rstripCons h

theorem rstripP_idem (p : Char → Bool) (l : List Char) :
    rstripP p (rstripP p l) = rstripP p l := by
  induction l with
  | nil => rfl
  | cons c cs ih =>
    simp only [rstripP]
    cases hr : rstripP p cs with
    | nil =>
      simp only [rstripCons]
      split
      · rfl
      · rename_i hc
        simp [rstripP, rstripCons, hc]
    | cons y ys =>
      rw [hr] at ih
      simp only [rstripP] at ih
      have hcons : rstripCons p c (y :: ys) = c :: y :: ys := by
        simp [rstripCons]
      rw [hcons]
      simp only [rstripP, ih, hcons]

theorem pyStrip_idem (l : List Char) : pyStrip (pyStrip l) = pyStrip l := by
  unfold pyStrip rstripF
  rw [lstripF_of_headF (headIs_rstripP (headIs_lstripF l))]
  rw [rstripP_idem]

theorem pyLower_digits_append {ds b : List Char}
    (hd : ∀ c ∈ ds, isDigitC c = true) :
    pyLower (ds ++ b) = ds ++ pyLower b := by
  unfold pyLower
  rw [List.map_append]
  congr 1
  induction ds with
  | nil => rfl
  | cons c cs ih =>
    simp only [List.map_cons, digit_lowerChar (hd c (by simp))]
    rw [ih (fun x hx => hd x (by simp [hx]))]

theorem pyStrip_digits_append {ds b : List Char} (h1 : ds ≠ [])
    (h2 : ∀ c ∈ ds, isDigitC c = true) (h4 : rstripF b = b) (h5 : b ≠ []) :
    pyStrip (ds ++ b) = ds ++ b := by
  unfold pyStrip
  have hl : lstripF (ds ++ b) = ds ++ b := by
    apply lstripF_of_headF
    cases ds with
    | nil => exact absurd rfl h1
    | cons d ds2 =>
      simp only [List.cons_append, headIs]
      exact digit_not_space (h2 d (by simp))
  rw [hl]
  unfold rstripF at h4 ⊢
  rw [rstripP_append_ne (by rw [h4]; exact h5), h4]

theorem preprocess_digits_append {ds b : List Char} (h1 : ds ≠ [])
    (h2 : ∀ c ∈ ds, isDigitC c = true) (h3 : pyLower b = b)
    (h4 : rstripF b = b) (h5 : b ≠ [])
    (h6 : containsSub repostedL b = false) :
    preprocessTime (ds ++ b) = ds ++ b := by
  unfold preprocessTime
  rw [pyLower_digits_append h2, h3, pyStrip_digits_append h1 h2 h4 h5]
  simp only [containsSub_digit_drop h2, h6, Bool.false_eq_true, if_false]

theorem searchRel_digits_hit {ds b : List Char} {u : RelUnit}
    (h1 : ds ≠ []) (h2 : ∀ c ∈ ds, isDigitC c = true)
    (hb : headIs isDigitC b = false) (hu : matchUnitPart b = some u) :
    searchRel (ds ++ b) = some (digitsVal ds, u) := by
  have hm : matchRelAt (ds ++ b) = some (digitsVal ds, u) := by
    rw [matchRelAt_digits h1 h2 hb, hu]
    rfl
  cases ds with
  | nil => exact absurd rfl h1
  | cons d ds2 =>
    rw [List.cons_append] at hm ⊢
    simp only [searchRel, hm]

theorem searchShort_digits_hit {ds b : List Char} {u : RelUnit}
    (h1 : ds ≠ []) (h2 : ∀ c ∈ ds, isDigitC c = true)
    (hb : headIs isDigitC b = false) (hu : matchShortPart b = some u) :
    searchShort (ds ++ b) = some (digitsVal ds, u) := by
  have hm : matchShortAt (ds ++ b) = some (digitsVal ds, u) := by
    rw [matchShortAt_digits h1 h2 hb, hu]
    rfl
  cases ds with
  | nil => exact absurd rfl h1
  | cons d ds2 =>
    rw [List.cons_append] at hm ⊢
    simp only [searchShort, hm]

/-! ## Claim theorems -/

/-- C9: when the raw pool is empty, the run writes the empty JSON array
(`scrape_all_jobs` lines 783-787 dump `[]`); the run completes normally
(the output function is total), so this is a valid non-error outcome. -/
theorem c9_empty_pool_outputs_empty_array : finalFeed [] = [] := rfl

/-- C8: every pair of adjacent records `(a, b)` of the final feed
satisfies `a.postedAt >= b.postedAt` — the feed is sorted descending by
`posted_datetime` (line 775), ties left unordered by contract. -/
theorem c8_feed_sorted_descending (pool : List Job) :
    List.Chain'
      (fun a b => b.posted_datetime.toSec ≤ a.posted_datetime.toSec)
      (finalFeed pool) := by
  unfold finalFeed
  split
  · simp
  · have h := pairwise_sortDesc (dedup pool)
    simp only [jobKey] at h
    exact List.Pairwise.chain' h

/-- C4 counterexample: the Up2Staff adapter (lines 637-690) has no
falsy-url guard — its only url checks are the `SKIP_PATHS` substring
test and the base-url equality test, and neither rejects an empty
href — so a wrapper whose title link carries `href=""` and a fresh time
string produces a feed record whose url is the empty string, refuting
the claim's feed-wide `url` non-emptiness. -/
theorem c4_counterexample :
    (finalFeed (rawPool cNow cTh [] [] [[u2Empty]])).map Job.url = [""] ∧
      u2Empty.href = some "" := by
  decide

/-- C4 (amended): every record of a final feed built from the modelled
adapters (Dribbble, Remote Rocketship and the Up2Staff API adapter) has
`postedAt` strictly above the fixed threshold — each adapter drops an
item whose time string is unparseable or whose normalized time is at or
below the threshold before it can enter the feed — and every record
from the page-based adapters (which guard `if not job_url: continue`)
has a non-empty url; the Up2Staff API adapter lacks that guard, so only
its records can carry an empty url. -/
theorem c4_amended (now : DateTime) (th : Int)
    (dPages : List (List DribbbleItem))
    (rPages : List (List (Option (List RRItem))))
    (uPages : List (List U2Item)) (j : Job)
    (hj : j ∈ finalFeed (rawPool now th dPages rPages uPages)) :
    th < j.posted_datetime.toSec ∧ (j.source ≠ "Up2Staff" → j.url ≠ "") := by
  have h := rawPool_inv (mem_finalFeed hj)
  simpa [jobKey] using h

/-- C4 witness: a concrete Dribbble page produces a concrete feed record
satisfying both the recency bound and the url guard. -/
theorem c4_witness :
    cTh < cJobD.posted_datetime.toSec ∧
      (cJobD.source ≠ "Up2Staff" → cJobD.url ≠ "") :=
  c4_amended cNow cTh [[dItemFresh]] [] [] cJobD (by decide)

/-- C1 counterexample: selector set A yields one container (`rrStale`,
whose time string is unparseable, so it produces zero valid items), yet
the adapter goes on to selector set B and returns B's record — it does
not commit to the first set that yields containers, contradicting the
claim that zero valid items would not trigger further fallback. -/
theorem c1_counterexample :
    (scrape_remote_rocketship_jobs cNow cTh
        [some [rrStale], some [rrFresh]]).map Job.url =
      ["https://www.remoterocketship.com/new-job"] ∧
    ([rrStale] : List RRItem) ≠ [] ∧ rrStale.href = some "/old" := by
  decide

/-- C1 (amended): the adapter commits to the first selector set that
yields at least one container AND at least one valid (recency-passing)
record; a set whose containers all fail normalization or recency is
abandoned and the next set is tried (lines 311-316 break only when
`jobs` is nonempty).  In particular, when set A yields zero containers
the output comes from set B, with at most one record per container. -/
theorem c1_amended (now : DateTime) (th : Int) (itemsA itemsB : List RRItem) :
    scrape_remote_rocketship_jobs now th [some itemsA, some itemsB] =
      (if itemsA.isEmpty = true ∨ (rrProcess now th itemsA).isEmpty = true
        then rrProcess now th itemsB
        else rrProcess now th itemsA) ∧
    (rrProcess now th itemsB).length ≤ itemsB.length := by
  constructor
  · unfold scrape_remote_rocketship_jobs
    by_cases hA : itemsA.isEmpty
    · simp only [rrLoop, hA, if_true, hA, true_or, if_true]
      by_cases hB : itemsB.isEmpty
      · have hB' : itemsB = [] := List.isEmpty_iff.mp hB
        subst hB'
        simp [rrLoop, rrProcess]
      · simp only [hB, Bool.false_eq_true, if_false, List.nil_append]
        by_cases hPB : (rrProcess now th itemsB).isEmpty
        · have : rrProcess now th itemsB = [] := List.isEmpty_iff.mp hPB
          simp [this, rrLoop]
        · simp [hPB, rrLoop]
    · simp only [rrLoop, hA, Bool.false_eq_true, if_false, List.nil_append]
      by_cases hPA : (rrProcess now th itemsA).isEmpty
      · have hPA' : rrProcess now th itemsA = [] := List.isEmpty_iff.mp hPA
        simp only [hPA', rrLoop, List.isEmpty_nil, if_true, hA, hPA,
          Bool.false_eq_true, false_or, or_true, if_true]
        by_cases hB : itemsB.isEmpty
        · have hB' : itemsB = [] := List.isEmpty_iff.mp hB
          subst hB'
          simp [rrLoop, rrProcess]
        · simp only [hB, Bool.false_eq_true, if_false, List.nil_append]
          by_cases hPB : (rrProcess now th itemsB).isEmpty
          · have : rrProcess now th itemsB = [] := List.isEmpty_iff.mp hPB
            simp [this, rrLoop]
          · simp [hPB, rrLoop]
      · simp [hA, hPA, rrLoop]
  · exact List.length_filterMap_le _ _

/-- C2 counterexample: two BuiltIn records with identical url but
different titles both survive dedup (their key is
`source:title:posted_ago`, lines 767-770), so the output does not
contain exactly one record for that url. -/
theorem c2_counterexample :
    biJob1.url = biJob2.url ∧
      (List.filter (fun j => j.url == "https://x/job/1")
        (dedup [biJob1, biJob2])).length = 2 := by
  decide

/-- C2 (amended): for records whose source is not `BuiltIn` the dedup
key is the url and first-seen wins: if some non-BuiltIn record of the
pool has url `u` (and no BuiltIn record's key collides with `u`), the
deduplicated output contains exactly one non-BuiltIn record with url
`u`, namely the first one in pool order.  BuiltIn records are instead
keyed by `source:normalized_title:normalized_posted_ago` and may retain
several records sharing one url. -/
theorem c2_amended (pool : List Job) (u : String) (j0 : Job)
    (hb : ∀ j ∈ pool, j.source = "BuiltIn" → dedupeKey j ≠ u)
    (hf : pool.find? (urlPredNB u) = some j0) :
    (dedup pool).filter (urlPredNB u) = [j0] := by
  unfold dedup
  rw [dedupGo_filter_first (by simp) hb, hf]
  rfl

/-- C2 witness: two non-BuiltIn records with the same url; the first one
is the only one with that url in the deduplicated output. -/
theorem c2_witness :
    List.filter (urlPredNB "https://x/job/1")
      (dedup [plJob1, plJob2]) = [plJob1] :=
  c2_amended [plJob1, plJob2] "https://x/job/1" plJob1 (by decide)
    (by decide)

/-- C3 counterexample: `'1940-10-03'` contains the D/M/Y-shaped token
`'40-10-03'` (the capture regex allows only 1-2 leading digits, so the
century is cut off); it resolves through `%y-%m-%d` to year 2040, not
the literal year 1940 the claim's `YYYY-MM-DD`-resolution would give. -/
theorem c3_counterexample :
    parse_job_time cNow "1940-10-03" = some ⟨2040, 10, 3, 0, 0, 0⟩ ∧
      (2040 : Nat) ≠ 1940 :=
  ⟨rfl, by decide⟩

/-- C3 (amended): the captured token's leading component has at most two
digits, so the `%Y-%m-%d` format (which requires exactly four year
digits) never succeeds on any captured token; the remaining formats are
tried in the source's order.  A 4-digit leading year is truncated to its
last two digits by the capture: `'1999-10-03'` is captured as
`'99-10-03'` and resolved by `%y-%m-%d` (69-99 mapping to 19xx) to
1999-10-03, while `'1940-10-03'` resolves to 2040-10-03. -/
theorem c3_amended (now : DateTime) (s : String) (d1 d2 d3 : List Char)
    (h : searchAbs (preprocessTime s.data) = some (d1, d2, d3)) :
    tryFmtY4 d1 d2 d3 = none ∧
      parse_job_time now "1999-10-03" = some ⟨1999, 10, 3, 0, 0, 0⟩ ∧
      parse_job_time now "1940-10-03" = some ⟨2040, 10, 3, 0, 0, 0⟩ := by
  refine ⟨?_, rfl, rfl⟩
  exact tryFmtY4_none_of_len (searchAbs_fst_len h)

/-- C3 witness: a string on which the token search succeeds. -/
theorem c3_witness :
    tryFmtY4 ['9', '9'] ['1', '0'] ['0', '3'] = none ∧
      parse_job_time cNow "1999-10-03" = some ⟨1999, 10, 3, 0, 0, 0⟩ ∧
      parse_job_time cNow "1940-10-03" = some ⟨2040, 10, 3, 0, 0, 0⟩ :=
  c3_amended cNow "1999-10-03" ['9', '9'] ['1', '0'] ['0', '3'] rfl

/-- C5 counterexample: `'feb 29'` matches the month-name pattern and no
earlier pattern, and 2024-02-29 is a real date (Feb 2024 has 29 days),
yet the normalizer returns `none`: `strptime('%b %d')` pins year 1900,
where Feb 29 does not exist (lines 109-110) — not the claimed
current-year date. -/
theorem c5_counterexample :
    parse_job_time nowMar2024 "feb 29" = none ∧
      daysInMonth 2024 2 = 29 := by
  decide

theorem parseCore_monthday {now : DateTime} {s : List Char}
    (h1 : searchRel s = none) (h2 : searchShort s = none)
    (h3 : absResolve s = none) :
    parseCore now s = monthDayBranch now s := by
  unfold parseCore
  rw [h1, h2, h3]

theorem monthDayBranch_eq {now : DateTime} {s : List Char} {m : Nat}
    {dstr : List Char} (h4 : searchMonthDay s = some (m, dstr))
    (h5 : validDayStr dstr = true ∧ digitsVal dstr ≤ daysInMonth 1900 m) :
    monthDayBranch now s =
      some (if now.toSec <
          (⟨now.year, m, digitsVal dstr, 0, 0, 0⟩ : DateTime).toSec
        then ⟨now.year - 1, m, digitsVal dstr, 0, 0, 0⟩
        else ⟨now.year, m, digitsVal dstr, 0, 0, 0⟩) := by
  unfold monthDayBranch
  rw [h4]
  show monthDayResolve now m dstr = _
  unfold monthDayResolve
  rw [if_pos h5]

/-- C5 (amended): when no earlier pattern matches and the month-day
pattern yields month `m` and day digits `dstr` that form a valid date in
year 1900 (which excludes Feb 29 and days beyond the month length), the
normalizer returns that month/day in the current year, rolled back one
year when the current-year date lies strictly in the future of `now`. -/
theorem c5_amended (now : DateTime) (s : String) (m : Nat)
    (dstr : List Char)
    (h1 : searchRel (preprocessTime s.data) = none)
    (h2 : searchShort (preprocessTime s.data) = none)
    (h3 : absResolve (preprocessTime s.data) = none)
    (h4 : searchMonthDay (preprocessTime s.data) = some (m, dstr))
    (h5 : validDayStr dstr ∧ digitsVal dstr ≤ daysInMonth 1900 m) :
    parse_job_time now s =
      some (if now.toSec <
          (⟨now.year, m, digitsVal dstr, 0, 0, 0⟩ : DateTime).toSec
        then ⟨now.year - 1, m, digitsVal dstr, 0, 0, 0⟩
        else ⟨now.year, m, digitsVal dstr, 0, 0, 0⟩) := by
  unfold parse_job_time
  exact (parseCore_monthday h1 h2 h3).trans (monthDayBranch_eq h4 h5)

/-- C5 witness: the spec's scenario — `'Aug 08'` at `now` on 2025-01-10
rolls back to 2024-08-08. -/
theorem c5_witness :
    parse_job_time cNow "Aug 08" = some ⟨2024, 8, 8, 0, 0, 0⟩ := by
  have h := c5_amended cNow "Aug 08" 8 ['0', '8'] rfl rfl rfl rfl
    (by decide)
  rw [h]
  decide

/-- C7: the normalizer lower-cases and strips the input and removes the
first literal `reposted` occurrence before any pattern matching (lines
61-63; when `reposted` is absent the removal and re-strip are no-ops),
so `'reposted 2d ago'` normalizes exactly like `'2d ago'`. -/
theorem c7_reposted_stripped (now : DateTime) (s : String) :
    parse_job_time now s =
        parseCore now
          (pyStrip (replaceFirstL repostedL (pyStrip (pyLower s.data)))) ∧
      parse_job_time now "reposted 2d ago" = parse_job_time now "2d ago" := by
  refine ⟨?_, rfl⟩
  unfold parse_job_time preprocessTime
  by_cases hc : containsSub repostedL (pyStrip (pyLower s.data)) = true
  · simp only [hc, if_true]
  · simp only [hc, if_false]
    rw [replaceFirstL_of_not_contains (Bool.eq_false_iff.mpr hc),
      pyStrip_idem]
    simp

theorem wordSuffix_facts (u : RelUnit) :
    pyLower (wordSuffix u) = wordSuffix u ∧
      rstripF (wordSuffix u) = wordSuffix u ∧
      wordSuffix u ≠ [] ∧
      containsSub repostedL (wordSuffix u) = false ∧
      headIs isDigitC (wordSuffix u) = false ∧
      matchUnitPart (wordSuffix u) = some u := by
  cases u <;>
    exact ⟨by decide, by decide, by decide, by decide, by decide, by decide⟩

theorem shortSuffix_facts (u : RelUnit) :
    pyLower (shortSuffix u) = shortSuffix u ∧
      rstripF (shortSuffix u) = shortSuffix u ∧
      shortSuffix u ≠ [] ∧
      containsSub repostedL (shortSuffix u) = false ∧
      headIs isDigitC (shortSuffix u) = false ∧
      matchUnitPart (shortSuffix u) = none ∧
      matchShortPart (shortSuffix u) = some u := by
  cases u <;>
    exact ⟨by decide, by decide, by decide, by decide, by decide,
      by decide, by decide⟩

/-- C6: for every digit string `ds` (so every non-negative `N` in
decimal) and unit, the word form `"<N> <unit>s ago"` and the shorthand
`"<N><u> ago"` normalize to the same instant, `now` minus `N` times the
unit (lines 66-92); and whenever the word pattern matches, the result
comes from it (the shorthand branch is behind the word branch's
failure). -/
theorem c6_word_shorthand_equivalent (now : DateTime) (ds : List Char)
    (u : RelUnit) (h1 : ds ≠ []) (h2 : ∀ c ∈ ds, isDigitC c = true) :
    parse_job_time now (String.mk (ds ++ wordSuffix u)) =
        some (dtSub now (digitsVal ds * unitSecs u)) ∧
      parse_job_time now (String.mk (ds ++ shortSuffix u)) =
        some (dtSub now (digitsVal ds * unitSecs u)) ∧
      ∀ (s : String) (r : Nat × RelUnit),
        searchRel (preprocessTime s.data) = some r →
        parse_job_time now s = some (dtSub now (r.1 * unitSecs r.2)) := by
  obtain ⟨hwl, hwr, hwn, hwc, hwh, hwu⟩ := wordSuffix_facts u
  obtain ⟨hsl, hsr, hsn, hsc, hsh, hsu, hss⟩ := shortSuffix_facts u
  refine ⟨?_, ?_, ?_⟩
  · have hdata : (String.mk (ds ++ wordSuffix u)).data = ds ++ wordSuffix u :=
      rfl
    unfold parse_job_time
    rw [hdata, preprocess_digits_append h1 h2 hwl hwr hwn hwc]
    unfold parseCore
    rw [searchRel_digits_hit h1 h2 hwh hwu]
  · have hdata :
        (String.mk (ds ++ shortSuffix u)).data = ds ++ shortSuffix u := rfl
    unfold parse_job_time
    rw [hdata, preprocess_digits_append h1 h2 hsl hsr hsn hsc]
    unfold parseCore
    rw [searchRel_digits_drop h2 hsh hsu]
    rw [show searchRel (shortSuffix u) = none from by cases u <;> decide]
    rw [searchShort_digits_hit h1 h2 hsh hss]
  · intro s r hr
    unfold parse_job_time parseCore
    rw [hr]

/-- C6 witness: the pair at `N = 3`, unit hours. -/
theorem c6_witness :
    parse_job_time cNow "3 hours ago" = some (dtSub cNow (3 * 3600)) ∧
      parse_job_time cNow "3h ago" = some (dtSub cNow (3 * 3600)) := by
  have h := c6_word_shorthand_equivalent cNow ['3'] RelUnit.hour
    (by decide) (by decide)
  exact ⟨h.1, h.2.1⟩

/-- C10 counterexample: `'1 day ago 3 hours ago'` contains
`'3 hours ago'` as a substring, but normalization returns `now - 1 day`
(the leftmost match wins), not the instant of the contained pattern —
surrounding text is not always ignored. -/
theorem c10_counterexample :
    containsSub payloadHoursAgo ("1 day ago 3 hours ago").data = true ∧
      parse_job_time cNow "1 day ago 3 hours ago" =
        some (dtSub cNow 86400) ∧
      parse_job_time cNow "3 hours ago" = some (dtSub cNow 10800) ∧
      dtSub cNow 86400 ≠ dtSub cNow 10800 := by
  decide

/-- C10 (amended): the patterns are matched as substrings anywhere in
the input (leftmost occurrence first), not anchored to the whole
string: if the text before an embedded `'3 hours ago'` contains no
digits (so it cannot start an earlier relative match) and the input
contains no `'reposted'` marker (whose removal is a separate
preprocessing step), normalization succeeds and returns exactly the
instant of the embedded pattern, for arbitrary trailing text. -/
theorem c10_amended (now : DateTime) (pre post : List Char)
    (hpre : ∀ c ∈ pre, isDigitC c = false)
    (hrep : containsSub repostedL
      (pyStrip (pyLower (pre ++ payloadHoursAgo ++ post))) = false) :
    parse_job_time now (String.mk (pre ++ payloadHoursAgo ++ post)) =
      parse_job_time now "3 hours ago" := by
  have hrhs : parse_job_time now "3 hours ago" =
      some (dtSub now (3 * unitSecs RelUnit.hour)) := rfl
  rw [hrhs]
  unfold parse_job_time preprocessTime
  simp only [hrep, Bool.false_eq_true, if_false]
  have hlow : pyLower (pre ++ payloadHoursAgo ++ post) =
      pyLower pre ++ (payloadHoursAgo ++ pyLower post) := by
    unfold pyLower
    rw [List.append_assoc, List.map_append, List.map_append]
    rw [show List.map lowerChar payloadHoursAgo = payloadHoursAgo from
      by decide]
  have hpre2 : ∀ c ∈ pyLower pre, isDigitC c = false := by
    intro c hc
    obtain ⟨x, hx, rfl⟩ := List.mem_map.mp hc
    exact lowerChar_not_digit (hpre x hx)
  have hheadpay : ∀ R : List Char,
      headIs isPySpace (payloadHoursAgo ++ R) = false := fun R => rfl
  have hlstrip : lstripF (pyLower pre ++ (payloadHoursAgo ++ pyLower post)) =
      lstripF (pyLower pre) ++ (payloadHoursAgo ++ pyLower post) :=
    dropWhile_append_headF (hheadpay (pyLower post))
  have hpre3 : ∀ c ∈ lstripF (pyLower pre), isDigitC c = false :=
    fun c hc => hpre2 c (mem_dropWhile hc)
  rw [hlow]
  unfold pyStrip
  rw [hlstrip]
  unfold rstripF
  by_cases hq : rstripP isPySpace (pyLower post) = []
  · have hmid : rstripP isPySpace (payloadHoursAgo ++ pyLower post) =
        payloadHoursAgo := by
      rw [rstripP_append_nil hq]
      decide
    rw [rstripP_append_ne (by rw [hmid]; decide) (lstripF (pyLower pre)),
      hmid]
    unfold parseCore
    rw [searchRel_nonDigits_drop hpre3]
    rw [show searchRel payloadHoursAgo = some (3, RelUnit.hour) from rfl]
  · have hmid : rstripP isPySpace (payloadHoursAgo ++ pyLower post) =
        payloadHoursAgo ++ rstripP isPySpace (pyLower post) :=
      rstripP_append_ne hq payloadHoursAgo
    rw [rstripP_append_ne (by rw [hmid]; simp [payloadHoursAgo])
      (lstripF (pyLower pre)), hmid]
    unfold parseCore
    rw [searchRel_nonDigits_drop hpre3]
    rw [show ∀ R, searchRel (payloadHoursAgo ++ R) = some (3, RelUnit.hour)
      from fun R => rfl]

/-- C10 witness: `'posted 3 hours ago by admin'` normalizes to the same
instant as `'3 hours ago'`. -/
theorem c10_witness :
    parse_job_time cNow "posted 3 hours ago by admin" =
      parse_job_time cNow "3 hours ago" := by
  have h := c10_amended cNow ("posted ").data (" by admin").data
    (by decide) (by decide)
  exact h
